/-
Verification of the salon reservation system core (rooms, bookings,
interval index, AVL catalog, undo/redo ledger) against its specification.

The Python sources are shallowly embedded: each class becomes a Lean
structure, each method a pure function on it.  Mutable aliasing between
the reservation dictionary, the AVL catalog and the interval payloads is
made explicit through an object heap addressed by natural-number
references.  Times are minutes since epoch, modeled as `Int` (the source
converts datetimes to epoch minutes before storing them).
-/
import Mathlib

namespace Salon

/-! ## Interval (interval_tree.py, class Interval)

Field `stop` embeds the source field `end` (a Lean keyword).  The
constructor of the source raises `ValueError` when `start > end`; that
raise is modeled at each construction site inside the system operations.
`Interval.__eq__` compares only `(start, end)` and `__lt__` is the
lexicographic order on `(start, end)`; `data` is a heap reference to the
associated reservation object (or `none` for plain query intervals). -/

structure Ival where
  start : Int
  stop : Int
  data : Option Nat := none
  deriving Repr, DecidableEq

/-- `Interval.overlaps`: `self.start < other.end and other.start < self.end`. -/
def Ival.overlaps (self other : Ival) : Bool :=
  self.start < other.stop && other.start < self.stop

/-- `Interval.__eq__`: equality on `(start, end)` only, `data` ignored. -/
def Ival.eqKey (a b : Ival) : Bool :=
  a.start = b.start && a.stop = b.stop

/-- `Interval.__lt__`: lexicographic on `(start, end)`. -/
def Ival.ltKey (a b : Ival) : Bool :=
  if a.start ≠ b.start then a.start < b.start else a.stop < b.stop

/-! ## IntervalNode / IntervalTree (interval_tree.py)

A node caches `max_end` and `height` exactly as the Python node does. -/

inductive ITree where
  | leaf
  | node (l : ITree) (iv : Ival) (maxEnd : Int) (height : Nat) (r : ITree)
  deriving Repr, DecidableEq

namespace ITree

/-- `_height`: `node.height if node else 0`. -/
def hgt : ITree → Nat
  | leaf => 0
  | node _ _ _ h _ => h

/-- `_balance_factor`: `height(left) - height(right)`, `0` for `None`. -/
def bfac : ITree → Int
  | leaf => 0
  | node l _ _ _ r => (hgt l : Int) - (hgt r : Int)

/-- Cached `max_end` of a node (unused default on an empty tree). -/
def cmax : ITree → Int
  | leaf => 0
  | node _ _ m _ _ => m

/-- Start bound of the root interval (the Python code reads
`node.interval.start` only when the child is known to exist). -/
def rootStart : ITree → Int
  | leaf => 0
  | node _ iv _ _ _ => iv.start

/-- `not node.left` / `not node.right` tests of the source. -/
def isLeaf : ITree → Bool
  | leaf => true
  | node _ _ _ _ _ => false

/-- `_update_height_and_max`: recompute `height` and `max_end` of a node
from its (already updated) children. -/
def updateNode (l : ITree) (iv : Ival) (r : ITree) : ITree :=
  let h := 1 + max (hgt l) (hgt r)
  let m := iv.stop
  let m := match l with
    | leaf => m
    | node _ _ ml _ _ => max m ml
  let m := match r with
    | leaf => m
    | node _ _ mr _ _ => max m mr
  node l iv m h r

/-- `_rotate_right`; the Python code is only called with a left child
present, the fallback returns the tree unchanged. -/
def rotateRight : ITree → ITree
  | node (node a xv _ _ b) yv _ _ c =>
      updateNode a xv (updateNode b yv c)
  | t => t

/-- `_rotate_left`; fallback as in `rotateRight`. -/
def rotateLeft : ITree → ITree
  | node a xv _ _ (node b yv _ _ c) =>
      updateNode (updateNode a xv b) yv c
  | t => t

/-- The four rebalancing cases of `IntervalTree.insert._insert`, selected
by comparing the inserted start against the child's start. -/
def rebalIns (t : ITree) (iv : Ival) : ITree :=
  match t with
  | leaf => leaf
  | node l v m h r =>
    let t := node l v m h r
    let bal := bfac t
    if bal > 1 && iv.start < rootStart l then rotateRight t
    else if bal < -1 && iv.start ≥ rootStart r then rotateLeft t
    else if bal > 1 && iv.start ≥ rootStart l then
      rotateRight (node (rotateLeft l) v m h r)
    else if bal < -1 && iv.start < rootStart r then
      rotateLeft (node l v m h (rotateRight r))
    else t

/-- `IntervalTree.insert._insert`: place by `start` (ties to the right),
update height and `max_end`, then rebalance. -/
def insertAux : ITree → Ival → ITree
  | leaf, iv => node leaf iv iv.stop 1 leaf
  | node l v m h r, iv =>
    let t :=
      if iv.start < v.start then updateNode (insertAux l iv) v r
      else updateNode l v (insertAux r iv)
    rebalIns t iv

/-- `IntervalTree.find_overlapping._search`: recursive descent pruned by
`max_end` on the node and by `node.interval.start < query.end` on the
right child. -/
def findOverlapAux (q : Ival) : ITree → List Ival
  | leaf => []
  | node l v m _ r =>
    if m ≤ q.start then []
    else
      findOverlapAux q l
        ++ (if v.overlaps q then [v] else [])
        ++ (if v.start < q.stop then findOverlapAux q r else [])

/-- `IntervalTree.delete._find_min`: leftmost interval of a subtree
(the Python code is only called on non-empty subtrees). -/
def findMinIv : ITree → Ival
  | leaf => ⟨0, 0, none⟩
  | node leaf v _ _ _ => v
  | node (node a xv xm xh b) _ _ _ _ => findMinIv (node a xv xm xh b)

/-- The delete-side rebalancing cases, selected by child balance factors. -/
def rebalDel (t : ITree) : ITree :=
  match t with
  | leaf => leaf
  | node l v m h r =>
    let t := node l v m h r
    let bal := bfac t
    if bal > 1 && bfac l ≥ 0 then rotateRight t
    else if bal > 1 && bfac l < 0 then
      rotateRight (node (rotateLeft l) v m h r)
    else if bal < -1 && bfac r ≤ 0 then rotateLeft t
    else if bal < -1 && bfac r > 0 then
      rotateLeft (node l v m h (rotateRight r))
    else t

/-- `IntervalTree.delete._delete`.  Navigation compares `(start, end)`
lexicographically; the one-child splice returns early without
re-augmenting (exactly as in the source); the two-child case overwrites
the node's interval with the in-order successor and recursively deletes
that successor from the right subtree. -/
def deleteAux : ITree → Ival → ITree
  | leaf, _ => leaf
  | node l v m h r, iv =>
    if iv.ltKey v then
      rebalDel (updateNode (deleteAux l iv) v r)
    else if iv.start > v.start || (iv.start = v.start && iv.stop > v.stop) then
      rebalDel (updateNode l v (deleteAux r iv))
    else if iv.eqKey v then
      if l.isLeaf then r
      else if r.isLeaf then l
      else
        let succ := findMinIv r
        rebalDel (updateNode l succ (deleteAux r succ))
    else
      -- dead branch with a total order on (start, end); kept for fidelity
      rebalDel (updateNode l v (deleteAux r iv))

/-- `_count_nodes`. -/
def countNodes : ITree → Nat
  | leaf => 0
  | node l _ _ _ r => 1 + countNodes l + countNodes r

/-- `get_all_intervals` (in-order traversal). -/
def inorder : ITree → List Ival
  | leaf => []
  | node l v _ _ r => inorder l ++ v :: inorder r

end ITree

/-- `IntervalTree`: root plus the maintained `size` counter. -/
structure IntervalTree where
  root : ITree
  size : Nat
  deriving Repr, DecidableEq

namespace IntervalTree

/-- `IntervalTree()`. -/
def empty : IntervalTree := ⟨.leaf, 0⟩

/-- `IntervalTree.insert`: always increments `size` and returns `True`. -/
def insert (t : IntervalTree) (iv : Ival) : IntervalTree × Bool :=
  (⟨t.root.insertAux iv, t.size + 1⟩, true)

/-- `IntervalTree.find_overlapping`. -/
def find_overlapping (t : IntervalTree) (q : Ival) : List Ival :=
  ITree.findOverlapAux q t.root

/-- `IntervalTree.delete`: rewrite the root unconditionally, then decide
success by recounting the nodes (the source's "simple size check"). -/
def delete (t : IntervalTree) (iv : Ival) : IntervalTree × Bool :=
  let root := t.root.deleteAux iv
  let n := root.countNodes
  if n < t.size then (⟨root, n⟩, true) else (⟨root, t.size⟩, false)

/-- `get_all_intervals`. -/
def get_all_intervals (t : IntervalTree) : List Ival :=
  t.root.inorder

end IntervalTree

/-! ## AVLNode / AVLTree (avl_tree.py)

Keys are modeled as `Nat` (the source keys the catalogs by opaque id
strings and compares them with the default
`lambda a, b: (a > b) - (a < b)`); values are a type parameter. -/

inductive AVL (β : Type) where
  | leaf
  | node (l : AVL β) (key : Nat) (value : β) (height : Nat) (r : AVL β)
  deriving Repr, DecidableEq

namespace AVL

variable {β : Type}

/-- `_height`. -/
def hgt : AVL β → Nat
  | leaf => 0
  | node _ _ _ h _ => h

/-- `_balance_factor`. -/
def bfac : AVL β → Int
  | leaf => 0
  | node l _ _ _ r => (hgt l : Int) - (hgt r : Int)

/-- Root key (read by the source only when the child exists). -/
def rootKey : AVL β → Nat
  | leaf => 0
  | node _ k _ _ _ => k

/-- `_update_height`: rebuild a node with recomputed height. -/
def updateH (l : AVL β) (k : Nat) (v : β) (r : AVL β) : AVL β :=
  node l k v (1 + max (hgt l) (hgt r)) r

/-- `_rotate_right`. -/
def rotR : AVL β → AVL β
  | node (node a xk xv _ b) yk yv _ c => updateH a xk xv (updateH b yk yv c)
  | t => t

/-- `_rotate_left`. -/
def rotL : AVL β → AVL β
  | node a xk xv _ (node b yk yv _ c) => updateH (updateH a xk xv b) yk yv c
  | t => t

/-- `_rebalance` (insert path, selected by comparing the inserted key
against the child key). -/
def rebalanceIns (t : AVL β) (k : Nat) : AVL β :=
  match t with
  | leaf => leaf
  | node l key v h r =>
    let t := node l key v h r
    let bal := bfac t
    if bal > 1 && k < rootKey l then rotR t
    else if bal < -1 && k > rootKey r then rotL t
    else if bal > 1 && k > rootKey l then rotR (node (rotL l) key v h r)
    else if bal < -1 && k < rootKey r then rotL (node l key v h (rotR r))
    else t

/-- `insert._insert`: a duplicate key overwrites the value and returns the
node immediately, skipping the height update and the rebalance. -/
def insertAux : AVL β → Nat → β → AVL β
  | leaf, k, v => node leaf k v 1 leaf
  | node l key val h r, k, v =>
    if k < key then rebalanceIns (updateH (insertAux l k v) key val r) k
    else if k > key then rebalanceIns (updateH l key val (insertAux r k v)) k
    else node l key v h r

/-- `_search_node` / `search`. -/
def searchAux : AVL β → Nat → Option β
  | leaf, _ => none
  | node l key v _ r, k =>
    if k < key then searchAux l k
    else if k > key then searchAux r k
    else some v

/-- `_find_min` (key and value of the leftmost node). -/
def findMinKV : AVL β → Nat × Option β
  | leaf => (0, none)
  | node leaf k v _ _ => (k, some v)
  | node (node a xk xv xh b) _ _ _ _ => findMinKV (node a xk xv xh b)

/-- `delete` rebalancing (selected by child balance factors). -/
def rebalanceDel (t : AVL β) : AVL β :=
  match t with
  | leaf => leaf
  | node l key v h r =>
    let t := node l key v h r
    let bal := bfac t
    if bal > 1 && bfac l ≥ 0 then rotR t
    else if bal > 1 && bfac l < 0 then rotR (node (rotL l) key v h r)
    else if bal < -1 && bfac r ≤ 0 then rotL t
    else if bal < -1 && bfac r > 0 then rotL (node l key v h (rotR r))
    else t

/-- `delete._delete`: the one-child cases return early without update or
rebalance; the two-child case copies the in-order successor's key and
value into the node and deletes the successor from the right subtree. -/
def deleteAux : AVL β → Nat → AVL β
  | leaf, _ => leaf
  | node l key v h r, k =>
    if k < key then rebalanceDel (updateH (deleteAux l k) key v r)
    else if k > key then rebalanceDel (updateH l key v (deleteAux r k))
    else
      match l, r with
      | leaf, _ => r
      | _, leaf => l
      | node la lk lv lh lb, node ra rk rv rh rb =>
        let l := node la lk lv lh lb
        let r := node ra rk rv rh rb
        let (sk, sv) := findMinKV r
        rebalanceDel (updateH l sk (sv.getD v) (deleteAux r sk))

/-- Node count of the AVL tree (for comparing against the maintained
`size` counter). -/
def countNodes : AVL β → Nat
  | leaf => 0
  | node l _ _ _ r => 1 + countNodes l + countNodes r

end AVL

/-- `AVLTree`: root plus the maintained `size` counter. -/
structure AVLTree (β : Type) where
  root : AVL β
  size : Nat
  deriving Repr, DecidableEq

namespace AVLTree

variable {β : Type}

/-- `AVLTree()`. -/
def empty : AVLTree β := ⟨.leaf, 0⟩

/-- `AVLTree.insert`: `size` is incremented unconditionally, even when
the key was already present and only the value was overwritten; the
`self.size > old_size` return value is therefore always `True`. -/
def insert (t : AVLTree β) (k : Nat) (v : β) : AVLTree β × Bool :=
  let old_size := t.size
  let size := t.size + 1
  (⟨t.root.insertAux k v, size⟩, size > old_size)

/-- `AVLTree.search`. -/
def search (t : AVLTree β) (k : Nat) : Option β :=
  t.root.searchAux k

/-- `AVLTree.contains`. -/
def containsKey (t : AVLTree β) (k : Nat) : Bool :=
  (t.search k).isSome

/-- `AVLTree.delete`. -/
def delete (t : AVLTree β) (k : Nat) : AVLTree β × Bool :=
  if t.containsKey k then (⟨t.root.deleteAux k, t.size - 1⟩, true)
  else (t, false)

end AVLTree

/-! ## Stack and UndoRedoManager (stack_queue.py) -/

/-- `Stack`: `items` keeps the top of the stack at the head. -/
structure Stack (α : Type) where
  items : List α
  max_size : Option Nat
  deriving Repr, DecidableEq

namespace Stack

variable {α : Type}

/-- `Stack.push`: `if self._max_size and len(self._items) >= self._max_size:
return False` — a full bounded stack rejects the NEW item (a `max_size`
of `0` is falsy in Python and disables the bound). -/
def push (s : Stack α) (a : α) : Stack α × Bool :=
  match s.max_size with
  | none => ({ s with items := a :: s.items }, true)
  | some m =>
    if m = 0 then ({ s with items := a :: s.items }, true)
    else if m ≤ s.items.length then (s, false)
    else ({ s with items := a :: s.items }, true)

/-- `Stack.pop` (the source raises `IndexError` on an empty stack; every
caller in the core guards with `is_empty`, so `Option` suffices). -/
def popI (st : Stack α) : Option (α × Stack α) :=
  match st.items with
  | [] => none
  | a :: rest => some (a, { st with items := rest })

/-- `Stack.clear`. -/
def clear (s : Stack α) : Stack α :=
  { s with items := [] }

/-- `Stack.is_empty`. -/
def is_empty (s : Stack α) : Bool :=
  s.items.isEmpty

end Stack

/-! ## System data model (reservation_system.py) -/

/-- `ReservationStatus`: five members — the four of the spec plus
`NO_SHOW`. -/
inductive ReservationStatus where
  | pending
  | confirmed
  | cancelled
  | completed
  | no_show
  deriving Repr, DecidableEq

/-- All enum members, in source order. -/
def ReservationStatus.members : List ReservationStatus :=
  [.pending, .confirmed, .cancelled, .completed, .no_show]

/-- `Room` (fields not touched by any claim — name, floor, amenities,
hourly rate — are omitted). -/
structure Room where
  id : Nat
  capacity : Nat
  is_active : Bool := true
  deriving Repr, DecidableEq

/-- `Reservation` (metadata fields and timestamps are omitted; times are
epoch minutes as produced by `_datetime_to_minutes`). -/
structure Reservation where
  id : Nat
  room_id : Nat
  start_time : Int
  end_time : Int
  status : ReservationStatus := .pending
  attendees : Nat := 1
  deriving Repr, DecidableEq

/-- `ActionType`. -/
inductive ActionType where
  | createA
  | updateA
  | deleteA
  | batchA
  deriving Repr, DecidableEq

/-- The `entity_type` strings used by the system. -/
inductive EntityType where
  | room
  | reservation
  | batch
  deriving Repr, DecidableEq

mutual
/-- The `old_state` / `new_state` payload of an `Action`: `to_dict`
snapshots are deep copies, hence plain values; a batch action stores its
buffered sub-actions in `old_state`. -/
inductive Snap where
  | nil : Snap
  | roomS : Room → Snap
  | resS : Reservation → Snap
  | batchS : List Action → Snap

/-- `Action` (the `timestamp` and `description` fields play no role in
any claim and are omitted). -/
inductive Action where
  | mk : ActionType → EntityType → Option Nat → Snap → Snap → Action
end

/-- `action.action_type`. -/
def Action.action_type : Action → ActionType
  | .mk t _ _ _ _ => t

/-- `action.entity_type`. -/
def Action.entity_type : Action → EntityType
  | .mk _ e _ _ _ => e

/-- `action.entity_id`. -/
def Action.entity_id : Action → Option Nat
  | .mk _ _ i _ _ => i

/-- `action.old_state`. -/
def Action.old_state : Action → Snap
  | .mk _ _ _ o _ => o

/-- `action.new_state`. -/
def Action.new_state : Action → Snap
  | .mk _ _ _ _ n => n

/-- `UndoRedoManager`. -/
structure UndoRedoManager where
  undo_stack : Stack Action
  redo_stack : Stack Action
  max_history : Nat
  batch_mode : Bool
  batch_actions : List Action

namespace UndoRedoManager

/-- `UndoRedoManager(max_history)`. -/
def init (mh : Nat) : UndoRedoManager :=
  ⟨⟨[], some mh⟩, ⟨[], some mh⟩, mh, false, []⟩

/-- `record_action`: buffer while in batch mode, otherwise push to the
undo stack (the push's boolean result is discarded) and clear the redo
stack. -/
def record_action (m : UndoRedoManager) (a : Action) : UndoRedoManager :=
  if m.batch_mode then { m with batch_actions := m.batch_actions ++ [a] }
  else
    { m with undo_stack := (m.undo_stack.push a).1, redo_stack := m.redo_stack.clear }

/-- `record_create`. -/
def record_create (m : UndoRedoManager) (et : EntityType) (eid : Nat)
    (new_state : Snap) : UndoRedoManager :=
  m.record_action (.mk .createA et (some eid) .nil new_state)

/-- `record_update`. -/
def record_update (m : UndoRedoManager) (et : EntityType) (eid : Nat)
    (old_state new_state : Snap) : UndoRedoManager :=
  m.record_action (.mk .updateA et (some eid) old_state new_state)

/-- `record_delete`. -/
def record_delete (m : UndoRedoManager) (et : EntityType) (eid : Nat)
    (old_state : Snap) : UndoRedoManager :=
  m.record_action (.mk .deleteA et (some eid) old_state .nil)

/-- `begin_batch`. -/
def begin_batch (m : UndoRedoManager) : UndoRedoManager :=
  { m with batch_mode := true, batch_actions := [] }

/-- `end_batch`: wrap the buffered commands into one `BATCH` action. -/
def end_batch (m : UndoRedoManager) : UndoRedoManager :=
  if !m.batch_mode then m
  else
    let m := { m with batch_mode := false }
    let m :=
      if m.batch_actions.isEmpty then m
      else
        let ba : Action := .mk .batchA .batch none (.batchS m.batch_actions) .nil
        { m with undo_stack := (m.undo_stack.push ba).1, redo_stack := m.redo_stack.clear }
    { m with batch_actions := [] }

/-- `undo`: pop from the undo stack, push onto the redo stack, return the
action for the caller to apply. -/
def undo (m : UndoRedoManager) : UndoRedoManager × Option Action :=
  match m.undo_stack.popI with
  | none => (m, none)
  | some (a, us) =>
    ({ m with undo_stack := us, redo_stack := (m.redo_stack.push a).1 }, some a)

/-- `redo`. -/
def redo (m : UndoRedoManager) : UndoRedoManager × Option Action :=
  match m.redo_stack.popI with
  | none => (m, none)
  | some (a, rs) =>
    ({ m with redo_stack := rs, undo_stack := (m.undo_stack.push a).1 }, some a)

end UndoRedoManager

/-! ## ReservationSystem (reservation_system.py)

Python objects are mutable and shared: `add_room` / `create_reservation`
store the same object in the dictionary, in the AVL catalog and (for
reservations) in the interval payload, and `setattr` mutates it for all
three at once, while the undo restore path rebinds only the dictionary
entry to a fresh object.  To capture this the model keeps an object heap
per entity type; a `Nat` is an object reference, and both the
dictionaries and the AVL values store references. -/

/-- Python `dict` lookup (`d.get(k)` / `d[k]`). -/
def dictGet {α : Type} (d : List (Nat × α)) (k : Nat) : Option α :=
  match d.find? (fun p => p.1 == k) with
  | none => none
  | some p => some p.2

/-- Python `dict` membership (`k in d`). -/
def dictHas {α : Type} (d : List (Nat × α)) (k : Nat) : Bool :=
  (dictGet d k).isSome

/-- Python `d[k] = v` (overwrite in place, else append). -/
def dictSet {α : Type} (d : List (Nat × α)) (k : Nat) (v : α) : List (Nat × α) :=
  match d with
  | [] => [(k, v)]
  | (k', v') :: rest =>
    if k' = k then (k, v) :: rest else (k', v') :: dictSet rest k v

/-- Python `del d[k]`. -/
def dictDel {α : Type} (d : List (Nat × α)) (k : Nat) : List (Nat × α) :=
  match d with
  | [] => []
  | (k', v') :: rest =>
    if k' = k then rest else (k', v') :: dictDel rest k

/-- Allocate a fresh object on a heap, returning its reference. -/
def alloc {α : Type} (h : List α) (a : α) : List α × Nat :=
  (h ++ [a], h.length)

/-- `ReservationSystem.__init__` state (the priority queue, building
graph, waiting list and textual action log are external collaborators or
logging only and are not modeled). -/
structure ReservationSystem where
  roomHeap : List Room
  resHeap : List Reservation
  rooms : List (Nat × Nat)
  room_tree : AVLTree Nat
  reservations : List (Nat × Nat)
  reservation_tree : AVLTree Nat
  room_intervals : List (Nat × IntervalTree)
  undo_manager : UndoRedoManager

namespace ReservationSystem

/-- `ReservationSystem()`. -/
def init : ReservationSystem :=
  ⟨[], [], [], AVLTree.empty, [], AVLTree.empty, [], UndoRedoManager.init 100⟩

/-- `get_room` resolved to a heap reference (`self._room_tree.search`). -/
def get_room_ref (s : ReservationSystem) (rid : Nat) : Option Nat :=
  s.room_tree.search rid

/-- `get_room`: the room value currently observable through the AVL
catalog. -/
def get_room (s : ReservationSystem) (rid : Nat) : Option Room :=
  match s.get_room_ref rid with
  | none => none
  | some ref => s.roomHeap[ref]?

/-- `get_reservation` resolved to a heap reference
(`self._reservation_tree.search`). -/
def get_reservation_ref (s : ReservationSystem) (rid : Nat) : Option Nat :=
  s.reservation_tree.search rid

/-- `get_reservation`: the reservation value currently observable through
the AVL catalog. -/
def get_reservation (s : ReservationSystem) (rid : Nat) : Option Reservation :=
  match s.get_reservation_ref rid with
  | none => none
  | some ref => s.resHeap[ref]?

/-- `add_room`. -/
def add_room (s : ReservationSystem) (room : Room) : ReservationSystem × Bool :=
  if dictHas s.rooms room.id then (s, false)
  else
    let (heap, ref) := alloc s.roomHeap room
    let s := { s with
      roomHeap := heap,
      rooms := dictSet s.rooms room.id ref,
      room_tree := (s.room_tree.insert room.id ref).1,
      room_intervals := dictSet s.room_intervals room.id IntervalTree.empty }
    let s := { s with
      undo_manager := s.undo_manager.record_create .room room.id (.roomS room) }
    (s, true)

/-- A patch for `update_room(room_id, **kwargs)` over the modeled fields. -/
structure RoomPatch where
  capacity : Option Nat := none
  is_active : Option Bool := none
  deriving Repr, DecidableEq

/-- `setattr` application of a room patch. -/
def RoomPatch.apply (p : RoomPatch) (r : Room) : Room :=
  { r with
    capacity := p.capacity.getD r.capacity,
    is_active := p.is_active.getD r.is_active }

/-- `update_room`: mutates the shared room object in place and records an
update action with before/after snapshots. -/
def update_room (s : ReservationSystem) (rid : Nat) (p : RoomPatch) :
    ReservationSystem × Bool :=
  match s.get_room_ref rid with
  | none => (s, false)
  | some ref =>
    match s.roomHeap[ref]? with
    | none => (s, false)
    | some room =>
      let old_state := room
      let room' := p.apply room
      let s := { s with roomHeap := s.roomHeap.set ref room' }
      let s := { s with
        undo_manager :=
          s.undo_manager.record_update .room rid (.roomS old_state) (.roomS room') }
      (s, true)

/-- Result of `delete_room`. -/
inductive DelRoomOut where
  | ok
  | notFound
  | inUse
  | raisedKeyError
  deriving Repr, DecidableEq

/-- `delete_room`: refuses while the room's interval tree reports a
positive `len` (the maintained `size` counter). -/
def delete_room (s : ReservationSystem) (rid : Nat) : ReservationSystem × DelRoomOut :=
  match s.get_room_ref rid with
  | none => (s, .notFound)
  | some ref =>
    match s.roomHeap[ref]? with
    | none => (s, .notFound)
    | some room =>
      let busy :=
        match dictGet s.room_intervals rid with
        | some t => decide (0 < t.size)
        | none => false
      if busy then (s, .inUse)
      else if !dictHas s.rooms rid then (s, .raisedKeyError)
      else
        let s := { s with
          rooms := dictDel s.rooms rid,
          room_tree := (s.room_tree.delete rid).1 }
        if !dictHas s.room_intervals rid then (s, .raisedKeyError)
        else
          let s := { s with room_intervals := dictDel s.room_intervals rid }
          let s := { s with
            undo_manager := s.undo_manager.record_delete .room rid (.roomS room) }
          (s, .ok)

/-- The status filter of `check_conflict`: only `CANCELLED` and
`COMPLETED` reservations are dropped from the conflict list. -/
def statusFiltered : ReservationStatus → Bool
  | .cancelled => true
  | .completed => true
  | _ => false

/-- `check_conflict`.  Returns `none` when the query-interval constructor
would raise `ValueError` (`start > end`); note the source returns `[]`
before constructing the interval when the room has no interval tree.
Conflicts are returned as heap references to the reservation objects. -/
def check_conflict (s : ReservationSystem) (rid : Nat) (start_t end_t : Int)
    (exclude : Option Nat) : Option (List Nat) :=
  match dictGet s.room_intervals rid with
  | none => some []
  | some t =>
    if start_t > end_t then none
    else
      let overlapping := t.find_overlapping ⟨start_t, end_t, none⟩
      some (overlapping.filterMap (fun iv =>
        match iv.data with
        | none => none
        | some ref =>
          match s.resHeap[ref]? with
          | none => none
          | some res =>
            if (match exclude with
                | none => true
                | some e => res.id ≠ e) then
              if statusFiltered res.status then none else some ref
            else none))

/-- Result of `create_reservation`. -/
inductive CreateOut where
  | ok
  | roomNotFound
  | roomInactive
  | capacityExceeded
  | conflict (refs : List Nat)
  | raisedValueError
  | raisedKeyError
  deriving Repr, DecidableEq

/-- `create_reservation`: validations and the conflict check precede all
mutation; on success the reservation is stored in the dictionary, the AVL
catalog and the room's interval tree, and a create action is recorded.
Note there is no `start < end` validation: a query interval with
`start > end` raises `ValueError` inside `check_conflict`, and the
interval constructed after the catalog insertions raises there if it is
reached with `start > end`. -/
def create_reservation (s : ReservationSystem) (r : Reservation) :
    ReservationSystem × CreateOut :=
  match s.get_room_ref r.room_id with
  | none => (s, .roomNotFound)
  | some roomref =>
    match s.roomHeap[roomref]? with
    | none => (s, .roomNotFound)
    | some room =>
      if !room.is_active then (s, .roomInactive)
      else if room.capacity < r.attendees then (s, .capacityExceeded)
      else
        match s.check_conflict r.room_id r.start_time r.end_time none with
        | none => (s, .raisedValueError)
        | some confl =>
          if !confl.isEmpty then (s, .conflict confl)
          else
            let (heap, ref) := alloc s.resHeap r
            let s := { s with
              resHeap := heap,
              reservations := dictSet s.reservations r.id ref,
              reservation_tree := (s.reservation_tree.insert r.id ref).1 }
            if r.start_time > r.end_time then (s, .raisedValueError)
            else
              match dictGet s.room_intervals r.room_id with
              | none => (s, .raisedKeyError)
              | some t =>
                let s := { s with
                  room_intervals :=
                    dictSet s.room_intervals r.room_id
                      (t.insert ⟨r.start_time, r.end_time, some ref⟩).1 }
                let s := { s with
                  undo_manager :=
                    s.undo_manager.record_create .reservation r.id (.resS r) }
                (s, .ok)

end ReservationSystem

/-- A patch for `update_reservation(reservation_id, **kwargs)` over the
modeled fields. -/
structure ResPatch where
  room_id : Option Nat := none
  start_time : Option Int := none
  end_time : Option Int := none
  status : Option ReservationStatus := none
  attendees : Option Nat := none
  deriving Repr, DecidableEq

/-- `setattr` application of a reservation patch. -/
def ResPatch.apply (p : ResPatch) (r : Reservation) : Reservation :=
  { r with
    room_id := p.room_id.getD r.room_id,
    start_time := p.start_time.getD r.start_time,
    end_time := p.end_time.getD r.end_time,
    status := p.status.getD r.status,
    attendees := p.attendees.getD r.attendees }

/-- `'start_time' in kwargs or 'end_time' in kwargs or 'room_id' in kwargs`. -/
def ResPatch.touchesTiming (p : ResPatch) : Bool :=
  p.start_time.isSome || p.end_time.isSome || p.room_id.isSome

/-- Result of `update_reservation`. -/
inductive UpdateOut where
  | ok
  | notFound
  | conflictReverted
  | raisedValueError
  | raisedKeyError
  deriving Repr, DecidableEq

namespace ReservationSystem

/-- `update_reservation`: always deletes the old interval first, patches
the shared object in place, re-checks conflicts when timing or room
changed (excluding the reservation's own id), reverts the object's fields
from the `old_state` snapshot and re-inserts the original interval on
conflict, and otherwise inserts the new interval and records an update
action. -/
def update_reservation (s : ReservationSystem) (rid : Nat) (p : ResPatch) :
    ReservationSystem × UpdateOut :=
  match s.get_reservation_ref rid with
  | none => (s, .notFound)
  | some ref =>
    match s.resHeap[ref]? with
    | none => (s, .notFound)
    | some res0 =>
      let old_state := res0
      let old_room := res0.room_id
      let old_iv : Ival := ⟨res0.start_time, res0.end_time, some ref⟩
      if res0.start_time > res0.end_time then (s, .raisedValueError)
      else
        match dictGet s.room_intervals old_room with
        | none => (s, .raisedKeyError)
        | some t0 =>
          let s := { s with
            room_intervals := dictSet s.room_intervals old_room (t0.delete old_iv).1 }
          let res1 := p.apply res0
          let s := { s with resHeap := s.resHeap.set ref res1 }
          let proceed := fun (s : ReservationSystem) =>
            if res1.start_time > res1.end_time then (s, UpdateOut.raisedValueError)
            else
              match dictGet s.room_intervals res1.room_id with
              | none => (s, UpdateOut.raisedKeyError)
              | some t2 =>
                let s := { s with
                  room_intervals :=
                    dictSet s.room_intervals res1.room_id
                      (t2.insert ⟨res1.start_time, res1.end_time, some ref⟩).1 }
                let s := { s with
                  undo_manager :=
                    s.undo_manager.record_update .reservation rid
                      (.resS old_state) (.resS res1) }
                (s, UpdateOut.ok)
          if p.touchesTiming then
            match s.check_conflict res1.room_id res1.start_time res1.end_time (some rid) with
            | none => (s, .raisedValueError)
            | some confl =>
              if !confl.isEmpty then
                let s := { s with resHeap := s.resHeap.set ref old_state }
                match dictGet s.room_intervals old_room with
                | none => (s, .raisedKeyError)
                | some t1 =>
                  let s := { s with
                    room_intervals :=
                      dictSet s.room_intervals old_room (t1.insert old_iv).1 }
                  (s, .conflictReverted)
              else proceed s
          else proceed s

/-- Result of `cancel_reservation`. -/
inductive CancelOut where
  | ok
  | notFound
  | alreadyCancelled
  | raisedKeyError
  deriving Repr, DecidableEq

/-- `cancel_reservation`: sets the shared object's status to `CANCELLED`,
removes its interval from the room's tree (ignoring the deletion's
boolean result), and records an update action. -/
def cancel_reservation (s : ReservationSystem) (rid : Nat) :
    ReservationSystem × CancelOut :=
  match s.get_reservation_ref rid with
  | none => (s, .notFound)
  | some ref =>
    match s.resHeap[ref]? with
    | none => (s, .notFound)
    | some res0 =>
      if res0.status = .cancelled then (s, .alreadyCancelled)
      else
        let old_state := res0
        let res1 := { res0 with status := ReservationStatus.cancelled }
        let s := { s with resHeap := s.resHeap.set ref res1 }
        match dictGet s.room_intervals res1.room_id with
        | none => (s, .raisedKeyError)
        | some t =>
          let s := { s with
            room_intervals :=
              dictSet s.room_intervals res1.room_id
                (t.delete ⟨res1.start_time, res1.end_time, some ref⟩).1 }
          let s := { s with
            undo_manager :=
              s.undo_manager.record_update .reservation rid
                (.resS old_state) (.resS res1) }
          (s, .ok)

/-- Result of `delete_reservation`. -/
inductive DelResOut where
  | ok
  | notFound
  | raisedKeyError
  deriving Repr, DecidableEq

/-- `delete_reservation`: removes the interval, the dictionary entry and
the AVL entry, and records a delete action with the full prior snapshot. -/
def delete_reservation (s : ReservationSystem) (rid : Nat) :
    ReservationSystem × DelResOut :=
  match s.get_reservation_ref rid with
  | none => (s, .notFound)
  | some ref =>
    match s.resHeap[ref]? with
    | none => (s, .notFound)
    | some res0 =>
      let old_state := res0
      match dictGet s.room_intervals res0.room_id with
      | none => (s, .raisedKeyError)
      | some t =>
        let s := { s with
          room_intervals :=
            dictSet s.room_intervals res0.room_id
              (t.delete ⟨res0.start_time, res0.end_time, some ref⟩).1 }
        let s := { s with
          reservations := dictDel s.reservations rid,
          reservation_tree := (s.reservation_tree.delete rid).1 }
        let s := { s with
          undo_manager :=
            s.undo_manager.record_delete .reservation rid (.resS old_state) }
        (s, .ok)

/-- `_force_delete_reservation` (undo/redo path): keyed off the
dictionary, guarded against a missing interval tree; returns `false` in
place of a raised exception (not reachable on recorded snapshots). -/
def force_delete_reservation (s : ReservationSystem) (rid : Nat) :
    ReservationSystem × Bool :=
  match dictGet s.reservations rid with
  | none => (s, true)
  | some ref =>
    match s.resHeap[ref]? with
    | none => (s, true)
    | some res =>
      if res.start_time > res.end_time then (s, false)
      else
        let s :=
          match dictGet s.room_intervals res.room_id with
          | none => s
          | some t =>
            { s with
              room_intervals :=
                dictSet s.room_intervals res.room_id
                  (t.delete ⟨res.start_time, res.end_time, some ref⟩).1 }
        ({ s with
          reservations := dictDel s.reservations rid,
          reservation_tree := (s.reservation_tree.delete rid).1 }, true)

/-- `_force_delete_room` (undo/redo path). -/
def force_delete_room (s : ReservationSystem) (rid : Nat) : ReservationSystem :=
  if dictHas s.rooms rid then
    let s := { s with
      rooms := dictDel s.rooms rid,
      room_tree := (s.room_tree.delete rid).1 }
    if dictHas s.room_intervals rid then
      { s with room_intervals := dictDel s.room_intervals rid }
    else s
  else s

/-- Tail of `_restore_reservation`: construct the interval (raising on
`start > end`) and insert it when the room's tree exists. -/
def restore_insert_interval (s : ReservationSystem) (ref : Nat) (r : Reservation) :
    ReservationSystem × Bool :=
  if r.start_time > r.end_time then (s, false)
  else
    match dictGet s.room_intervals r.room_id with
    | none => (s, true)
    | some t =>
      ({ s with
        room_intervals :=
          dictSet s.room_intervals r.room_id
            (t.insert ⟨r.start_time, r.end_time, some ref⟩).1 }, true)

/-- `_restore_reservation`: builds a FRESH object from the snapshot.  In
the create branch the dictionary and the AVL catalog both receive the new
reference; in the update branch only the dictionary entry is rebound (the
AVL catalog keeps the old reference) after the currently bound object's
interval is removed.  The boolean is `false` when the source would raise
(`KeyError` on a missing interval tree, `ValueError` on a degenerate
snapshot interval). -/
def restore_reservation (s : ReservationSystem) (rid : Nat) (state : Reservation)
    (createFlag : Bool) : ReservationSystem × Bool :=
  let r := state
  if createFlag || !dictHas s.reservations rid then
    let (heap, ref) := alloc s.resHeap r
    let s := { s with
      resHeap := heap,
      reservations := dictSet s.reservations rid ref,
      reservation_tree := (s.reservation_tree.insert rid ref).1 }
    restore_insert_interval s ref r
  else
    match dictGet s.reservations rid with
    | none => (s, true)
    | some oldRef =>
      match s.resHeap[oldRef]? with
      | none => (s, true)
      | some old_res =>
        if old_res.start_time > old_res.end_time then (s, false)
        else
          match dictGet s.room_intervals old_res.room_id with
          | none => (s, false)
          | some t =>
            let s := { s with
              room_intervals :=
                dictSet s.room_intervals old_res.room_id
                  (t.delete ⟨old_res.start_time, old_res.end_time, some oldRef⟩).1 }
            let (heap, ref) := alloc s.resHeap r
            let s := { s with resHeap := heap, reservations := dictSet s.reservations rid ref }
            restore_insert_interval s ref r

/-- `_restore_room`: in the create branch the dictionary, the AVL catalog
and (when missing) an empty interval tree are installed; in the update
branch only the dictionary entry is rebound to the fresh object. -/
def restore_room (s : ReservationSystem) (rid : Nat) (state : Room)
    (createFlag : Bool) : ReservationSystem :=
  let room := state
  if createFlag || !dictHas s.rooms rid then
    let (heap, ref) := alloc s.roomHeap room
    let s := { s with
      roomHeap := heap,
      rooms := dictSet s.rooms rid ref,
      room_tree := (s.room_tree.insert rid ref).1 }
    if !dictHas s.room_intervals rid then
      { s with room_intervals := dictSet s.room_intervals rid IntervalTree.empty }
    else s
  else
    let (heap, ref) := alloc s.roomHeap room
    { s with roomHeap := heap, rooms := dictSet s.rooms rid ref }

/-- `_apply_undo_action`: CREATE is undone by force-deletion, UPDATE by
restoring `old_state` in place, DELETE by re-creating from `old_state`.
A `BATCH` action matches none of the branches and does nothing. -/
def apply_undo_action (s : ReservationSystem) (a : Action) : ReservationSystem × Bool :=
  match a.action_type with
  | .createA =>
    match a.entity_type, a.entity_id with
    | .reservation, some i => s.force_delete_reservation i
    | .room, some i => (s.force_delete_room i, true)
    | _, _ => (s, true)
  | .updateA =>
    match a.entity_type, a.entity_id, a.old_state with
    | .reservation, some i, .resS st => s.restore_reservation i st false
    | .room, some i, .roomS st => (s.restore_room i st false, true)
    | _, _, _ => (s, true)
  | .deleteA =>
    match a.entity_type, a.entity_id, a.old_state with
    | .reservation, some i, .resS st => s.restore_reservation i st true
    | .room, some i, .roomS st => (s.restore_room i st true, true)
    | _, _, _ => (s, true)
  | .batchA => (s, true)

/-- `_apply_redo_action`: symmetric to undo, using `new_state`; a `BATCH`
action again matches no branch. -/
def apply_redo_action (s : ReservationSystem) (a : Action) : ReservationSystem × Bool :=
  match a.action_type with
  | .createA =>
    match a.entity_type, a.entity_id, a.new_state with
    | .reservation, some i, .resS st => s.restore_reservation i st true
    | .room, some i, .roomS st => (s.restore_room i st true, true)
    | _, _, _ => (s, true)
  | .updateA =>
    match a.entity_type, a.entity_id, a.new_state with
    | .reservation, some i, .resS st => s.restore_reservation i st false
    | .room, some i, .roomS st => (s.restore_room i st false, true)
    | _, _, _ => (s, true)
  | .deleteA =>
    match a.entity_type, a.entity_id with
    | .reservation, some i => s.force_delete_reservation i
    | .room, some i => (s.force_delete_room i, true)
    | _, _ => (s, true)
  | .batchA => (s, true)

/-- Result of `undo` / `redo`. -/
inductive UndoOut where
  | nothing
  | ok
  | raised
  deriving Repr, DecidableEq

/-- `undo`. -/
def undo (s : ReservationSystem) : ReservationSystem × UndoOut :=
  let (mgr, a?) := s.undo_manager.undo
  let s := { s with undo_manager := mgr }
  match a? with
  | none => (s, .nothing)
  | some a =>
    let (s, ok) := s.apply_undo_action a
    (s, if ok then .ok else .raised)

/-- `redo`. -/
def redo (s : ReservationSystem) : ReservationSystem × UndoOut :=
  let (mgr, a?) := s.undo_manager.redo
  let s := { s with undo_manager := mgr }
  match a? with
  | none => (s, .nothing)
  | some a =>
    let (s, ok) := s.apply_redo_action a
    (s, if ok then .ok else .raised)

/-- `self._undo_manager.begin_batch()`. -/
def begin_batch (s : ReservationSystem) : ReservationSystem :=
  { s with undo_manager := s.undo_manager.begin_batch }

/-- `self._undo_manager.end_batch(description)`. -/
def end_batch (s : ReservationSystem) : ReservationSystem :=
  { s with undo_manager := s.undo_manager.end_batch }

end ReservationSystem

/-! ## Invariants of the interval index -/

namespace ITree

/-- Cached `max_end` of a non-empty subtree bounded by `m` (vacuous for
an empty child, as in the source's `_update_height_and_max`). -/
def cmaxLe : ITree → Int → Bool
  | leaf, _ => true
  | node _ _ m' _ _, m => m' ≤ m

/-- Invariant: every node's cached `max_end` is an upper bound for its
own interval end and for the cached `max_end` of each child (hence,
transitively, for every end bound in its subtree).  This is what the
`max_end <= query.start` pruning of `find_overlapping` relies on. -/
def maxUB : ITree → Bool
  | leaf => true
  | node l v m _ r =>
    v.stop ≤ m && maxUB l && maxUB r && cmaxLe l m && cmaxLe r m

/-- Invariant: the in-order traversal is sorted by `start` (insertion
places equal starts in the right subtree, so only `≤` holds). -/
def StartsSorted (t : ITree) : Prop :=
  t.inorder.Pairwise (fun a b => a.start ≤ b.start)

instance decStartsSorted (t : ITree) : Decidable t.StartsSorted :=
  inferInstanceAs
    (Decidable (t.inorder.Pairwise (fun a b : Ival => a.start ≤ b.start)))

end ITree

/-- The public mutations of the interval index. -/
inductive IOp where
  | ins (iv : Ival)
  | del (iv : Ival)
  deriving Repr, DecidableEq

/-- Apply one public mutation to an interval tree. -/
def applyIOp (t : IntervalTree) (op : IOp) : IntervalTree :=
  match op with
  | .ins iv => (t.insert iv).1
  | .del iv => (t.delete iv).1

/-- An `IntervalTree` built by an arbitrary sequence of `insert` and
`delete` calls starting from the empty tree. -/
def buildIT (ops : List IOp) : IntervalTree :=
  ops.foldl applyIOp IntervalTree.empty

/-! ## Concrete execution traces used by the claims -/

open ReservationSystem

/-- Projection: the interval bounds stored for a room, in tree order. -/
def roomIntervalBounds (s : ReservationSystem) (rid : Nat) : Option (List (Int × Int)) :=
  match dictGet s.room_intervals rid with
  | none => none
  | some t => some (t.get_all_intervals.map (fun i => (i.start, i.stop)))

/-- One room, id 1, capacity 10, active. -/
def room1 : Room := { id := 1, capacity := 10 }

/-- System with `room1` added. -/
def sysR : ReservationSystem := (ReservationSystem.init.add_room room1).1

/-- Booking 10 on room 1 over `[600, 660)`. -/
def resA : Reservation := { id := 10, room_id := 1, start_time := 600, end_time := 660 }

/-- `sysR` after `create_reservation(resA)`. -/
def sysRA : ReservationSystem := (sysR.create_reservation resA).1

/-- `sysRA` after moving booking 10 to `[720, 780)`. -/
def sysRAU : ReservationSystem :=
  (sysRA.update_reservation 10
    { start_time := some 720, end_time := some 780 }).1

/-- `sysRAU` after one `undo()` (which should restore `[600, 660)`). -/
def sysRAUU : ReservationSystem := sysRAU.undo.1

/-- Booking 11 on room 1 over `[720, 780)`, requested after the undo. -/
def resB : Reservation := { id := 11, room_id := 1, start_time := 720, end_time := 780 }

/-- `sysRAUU` after `create_reservation(resB)`. -/
def sysC1 : ReservationSystem := (sysRAUU.create_reservation resB).1

/-- Batch trace: `begin_batch`, three creates, `end_batch`, one `undo`. -/
def sysBatch : ReservationSystem :=
  let s := sysR.begin_batch
  let s := (s.create_reservation resA).1
  let s := (s.create_reservation { id := 11, room_id := 1, start_time := 700, end_time := 710 }).1
  let s := (s.create_reservation { id := 12, room_id := 1, start_time := 800, end_time := 810 }).1
  s.end_batch

/-- `sysBatch` after the single `undo()` that should revert all three. -/
def sysBatchU : ReservationSystem := sysBatch.undo.1

/-- A zero-length booking request (`start == end`). -/
def resZero : Reservation := { id := 20, room_id := 1, start_time := 600, end_time := 600 }

/-- Trace for the update-conflict atomicity claim: `[100,200)` plus two
zero-length bookings sharing its start, plus `[300,400)`. -/
def sysC6 : ReservationSystem :=
  let s := (sysR.create_reservation { id := 30, room_id := 1, start_time := 100, end_time := 200 }).1
  let s := (s.create_reservation { id := 31, room_id := 1, start_time := 100, end_time := 100 }).1
  let s := (s.create_reservation { id := 32, room_id := 1, start_time := 100, end_time := 100 }).1
  (s.create_reservation { id := 33, room_id := 1, start_time := 300, end_time := 400 }).1

/-- The conflicting move of booking 30 onto `[300, 400)`. -/
def sysC6upd : ReservationSystem × UpdateOut :=
  sysC6.update_reservation 30 { start_time := some 300, end_time := some 400 }

/-- AVL catalog after `insert(1, 10)`. -/
def avlOne : AVLTree Nat := ((AVLTree.empty).insert 1 10).1

/-- `avlOne` after the duplicate-key `insert(1, 20)`. -/
def avlDup : AVLTree Nat := (avlOne.insert 1 20).1

/-- Interval tree holding `[5, 10)`. -/
def itOne : IntervalTree := (IntervalTree.empty.insert ⟨5, 10, none⟩).1

/-- `itOne` after inserting the start-tied `[5, 7)`. -/
def itTwo : IntervalTree := (itOne.insert ⟨5, 7, none⟩).1

/-- An undo manager bounded at one entry. -/
def mgrCap1 : UndoRedoManager := UndoRedoManager.init 1

/-- Two distinguishable recorded actions. -/
def actSeven : Action := .mk .createA .reservation (some 7) .nil .nil

/-- Second action, entity id 8. -/
def actEight : Action := .mk .createA .reservation (some 8) .nil .nil

/-- `mgrCap1` after recording `actSeven` (stack now full). -/
def mgrFull : UndoRedoManager := mgrCap1.record_action actSeven

/-- `mgrFull` after recording `actEight` against the full stack. -/
def mgrOver : UndoRedoManager := mgrFull.record_action actEight

/-- Trace for the NO_SHOW claim: booking 10 marked `no_show` by a
status-only update. -/
def sysNoShow : ReservationSystem :=
  (sysRA.update_reservation 10 { status := some .no_show }).1

/-- An overlapping request on the no-show slot. -/
def resOverNoShow : Reservation :=
  { id := 40, room_id := 1, start_time := 630, end_time := 700 }

/-- A backwards booking request (`start > end`). -/
def resNeg : Reservation := { id := 21, room_id := 1, start_time := 700, end_time := 600 }

/-- The stored value of booking 10 after it is marked `no_show`. -/
def noShowRes : Reservation :=
  { id := 10, room_id := 1, start_time := 600, end_time := 660,
    status := .no_show, attendees := 1 }

/-- Room 1's interval tree in `sysNoShow` (one interval, payload ref 0). -/
def noShowTree : IntervalTree :=
  ⟨.node .leaf ⟨600, 660, some 0⟩ 660 1 .leaf, 1⟩

/-! ## Theorems -/

namespace ITree

theorem inorder_updateNode (l : ITree) (v : Ival) (r : ITree) :
    (updateNode l v r).inorder = l.inorder ++ v :: r.inorder := rfl

theorem inorder_rotateRight (t : ITree) : (rotateRight t).inorder = t.inorder := by
  match t with
  | leaf => rfl
  | node leaf v m h r => rfl
  | node (node a xv xm xh b) yv ym yh c =>
    simp [rotateRight, inorder_updateNode, inorder, List.append_assoc]

theorem inorder_rotateLeft (t : ITree) : (rotateLeft t).inorder = t.inorder := by
  match t with
  | leaf => rfl
  | node l v m h leaf => rfl
  | node a xv xm xh (node b yv ym yh c) =>
    simp [rotateLeft, inorder_updateNode, inorder, List.append_assoc]

theorem inorder_rebalIns (t : ITree) (iv : Ival) :
    (rebalIns t iv).inorder = t.inorder := by
  match t with
  | leaf => rfl
  | node l v m h r =>
    simp only [rebalIns]
    repeat' split
    all_goals
      simp [inorder_rotateRight, inorder_rotateLeft, inorder_updateNode, inorder]

theorem inorder_rebalDel (t : ITree) :
    (rebalDel t).inorder = t.inorder := by
  match t with
  | leaf => rfl
  | node l v m h r =>
    simp only [rebalDel]
    repeat' split
    all_goals
      simp [inorder_rotateRight, inorder_rotateLeft, inorder_updateNode, inorder]

theorem maxUB_updateNode {l r : ITree} (v : Ival)
    (hl : maxUB l = true) (hr : maxUB r = true) :
    maxUB (updateNode l v r) = true := by
  cases l <;> cases r <;>
    simp_all [updateNode, maxUB, cmaxLe] <;> omega

theorem cmaxLe_updateNode {l r : ITree} {v : Ival} {m : Int}
    (hv : v.stop ≤ m) (hl : cmaxLe l m = true) (hr : cmaxLe r m = true) :
    cmaxLe (updateNode l v r) m = true := by
  cases l <;> cases r <;> simp_all [updateNode, cmaxLe] <;> omega

theorem cmaxLe_trans {t : ITree} {m m' : Int}
    (h : cmaxLe t m' = true) (hmm : m' ≤ m) : cmaxLe t m = true := by
  cases t <;> simp_all [cmaxLe] <;> omega

theorem maxUB_node_parts {l r : ITree} {v : Ival} {m : Int} {h : Nat}
    (hub : maxUB (node l v m h r) = true) :
    v.stop ≤ m ∧ maxUB l = true ∧ maxUB r = true ∧
      cmaxLe l m = true ∧ cmaxLe r m = true := by
  simp only [maxUB, Bool.and_eq_true, decide_eq_true_eq] at hub
  exact ⟨hub.1.1.1.1, hub.1.1.1.2, hub.1.1.2, hub.1.2, hub.2⟩

theorem maxUB_rotateRight {t : ITree} (h : maxUB t = true) :
    maxUB (rotateRight t) = true := by
  match t with
  | leaf => exact h
  | node leaf v m hh r => exact h
  | node (node a xv xm xh b) yv ym yh c =>
    obtain ⟨h1, h2, h3, h4, h5⟩ := maxUB_node_parts h
    obtain ⟨g1, g2, g3, g4, g5⟩ := maxUB_node_parts h2
    exact maxUB_updateNode xv g2 (maxUB_updateNode yv g3 h3)

theorem maxUB_rotateLeft {t : ITree} (h : maxUB t = true) :
    maxUB (rotateLeft t) = true := by
  match t with
  | leaf => exact h
  | node l v m hh leaf => exact h
  | node a xv xm xh (node b yv ym yh c) =>
    obtain ⟨h1, h2, h3, h4, h5⟩ := maxUB_node_parts h
    obtain ⟨g1, g2, g3, g4, g5⟩ := maxUB_node_parts h3
    exact maxUB_updateNode yv (maxUB_updateNode xv h2 g2) g3

theorem cmaxLe_rotateRight {t : ITree} {m : Int}
    (hub : maxUB t = true) (h : cmaxLe t m = true) :
    cmaxLe (rotateRight t) m = true := by
  match t with
  | leaf => exact h
  | node leaf v mm hh r => exact h
  | node (node a xv xm xh b) yv ym yh c =>
    obtain ⟨h1, h2, h3, h4, h5⟩ := maxUB_node_parts hub
    obtain ⟨g1, g2, g3, g4, g5⟩ := maxUB_node_parts h2
    have hym : ym ≤ m := by simpa [cmaxLe] using h
    have hxm : xm ≤ m := le_trans (by simpa [cmaxLe] using h4) hym
    exact cmaxLe_updateNode (le_trans g1 hxm)
      (cmaxLe_trans g4 hxm)
      (cmaxLe_updateNode (le_trans h1 hym)
        (cmaxLe_trans g5 hxm) (cmaxLe_trans h5 hym))

theorem maxUB_node_build {l r : ITree} {v : Ival} {m : Int} (h : Nat)
    (h1 : v.stop ≤ m) (h2 : maxUB l = true) (h3 : maxUB r = true)
    (h4 : cmaxLe l m = true) (h5 : cmaxLe r m = true) :
    maxUB (node l v m h r) = true := by
  simp [maxUB, h1, h2, h3, h4, h5]

theorem cmaxLe_rotateLeft {t : ITree} {m : Int}
    (hub : maxUB t = true) (h : cmaxLe t m = true) :
    cmaxLe (rotateLeft t) m = true := by
  match t with
  | leaf => exact h
  | node l v mm hh leaf => exact h
  | node a xv xm xh (node b yv ym yh c) =>
    obtain ⟨h1, h2, h3, h4, h5⟩ := maxUB_node_parts hub
    obtain ⟨g1, g2, g3, g4, g5⟩ := maxUB_node_parts h3
    have hxm : xm ≤ m := by simpa [cmaxLe] using h
    have hym : ym ≤ m := le_trans (by simpa [cmaxLe] using h5) hxm
    exact cmaxLe_updateNode (le_trans g1 hym)
      (cmaxLe_updateNode (le_trans h1 hxm)
        (cmaxLe_trans h4 hxm) (cmaxLe_trans g4 hym))
      (cmaxLe_trans g5 hym)

theorem maxUB_rebalIns {t : ITree} (iv : Ival) (hub : maxUB t = true) :
    maxUB (rebalIns t iv) = true := by
  match t with
  | leaf => exact hub
  | node l v m h r =>
    obtain ⟨h1, h2, h3, h4, h5⟩ := maxUB_node_parts hub
    simp only [rebalIns]
    repeat' split
    · exact maxUB_rotateRight hub
    · exact maxUB_rotateLeft hub
    · exact maxUB_rotateRight
        (maxUB_node_build h h1 (maxUB_rotateLeft h2) h3 (cmaxLe_rotateLeft h2 h4) h5)
    · exact maxUB_rotateLeft
        (maxUB_node_build h h1 h2 (maxUB_rotateRight h3) h4 (cmaxLe_rotateRight h3 h5))
    · exact hub

theorem maxUB_rebalDel {t : ITree} (hub : maxUB t = true) :
    maxUB (rebalDel t) = true := by
  match t with
  | leaf => exact hub
  | node l v m h r =>
    obtain ⟨h1, h2, h3, h4, h5⟩ := maxUB_node_parts hub
    simp only [rebalDel]
    repeat' split
    · exact maxUB_rotateRight hub
    · exact maxUB_rotateRight
        (maxUB_node_build h h1 (maxUB_rotateLeft h2) h3 (cmaxLe_rotateLeft h2 h4) h5)
    · exact maxUB_rotateLeft hub
    · exact maxUB_rotateLeft
        (maxUB_node_build h h1 h2 (maxUB_rotateRight h3) h4 (cmaxLe_rotateRight h3 h5))
    · exact hub

theorem maxUB_insertAux {t : ITree} (iv : Ival) (h : maxUB t = true) :
    maxUB (insertAux t iv) = true := by
  induction t with
  | leaf => simp [insertAux, maxUB, cmaxLe]
  | node l v m hh r ihl ihr =>
    obtain ⟨h1, h2, h3, h4, h5⟩ := maxUB_node_parts h
    simp only [insertAux]
    split
    · exact maxUB_rebalIns iv (maxUB_updateNode v (ihl h2) h3)
    · exact maxUB_rebalIns iv (maxUB_updateNode v h2 (ihr h3))

theorem maxUB_deleteAux {t : ITree} (iv : Ival) (h : maxUB t = true) :
    maxUB (deleteAux t iv) = true := by
  induction t generalizing iv with
  | leaf => exact h
  | node l v m hh r ihl ihr =>
    obtain ⟨h1, h2, h3, h4, h5⟩ := maxUB_node_parts h
    simp only [deleteAux]
    repeat' split
    · exact maxUB_rebalDel (maxUB_updateNode v (ihl _ h2) h3)
    · exact maxUB_rebalDel (maxUB_updateNode v h2 (ihr _ h3))
    · exact h3
    · exact h2
    · exact maxUB_rebalDel (maxUB_updateNode _ h2 (ihr _ h3))
    · exact maxUB_rebalDel (maxUB_updateNode v h2 (ihr _ h3))

theorem mem_inorder_insertAux {t : ITree} {iv j : Ival} :
    j ∈ (insertAux t iv).inorder ↔ j ∈ t.inorder ∨ j = iv := by
  induction t with
  | leaf => simp [insertAux, inorder]
  | node l v m hh r ihl ihr =>
    simp only [insertAux]
    split
    · rw [inorder_rebalIns, inorder_updateNode]
      simp only [inorder, List.mem_append, List.mem_cons, ihl]
      tauto
    · rw [inorder_rebalIns, inorder_updateNode]
      simp only [inorder, List.mem_append, List.mem_cons, ihr]
      tauto

theorem inorder_eq_findMin_cons {t : ITree} (hne : t ≠ leaf) :
    ∃ rest, t.inorder = findMinIv t :: rest := by
  induction t with
  | leaf => exact absurd rfl hne
  | node l v m hh r ihl _ =>
    cases l with
    | leaf => exact ⟨r.inorder, by simp [inorder, findMinIv]⟩
    | node la lv lm lh lb =>
      obtain ⟨rest, hrest⟩ := ihl (by simp)
      refine ⟨rest ++ v :: r.inorder, ?_⟩
      have hio : (node (node la lv lm lh lb) v m hh r).inorder
          = (node la lv lm lh lb).inorder ++ v :: r.inorder := rfl
      rw [hio, hrest]
      rfl

theorem mem_inorder_deleteAux {t : ITree} {iv j : Ival}
    (hj : j ∈ (deleteAux t iv).inorder) : j ∈ t.inorder := by
  induction t generalizing iv with
  | leaf => simpa [deleteAux] using hj
  | node l v m hh r ihl ihr =>
    simp only [deleteAux] at hj
    split at hj
    · rw [inorder_rebalDel, inorder_updateNode] at hj
      simp only [inorder, List.mem_append, List.mem_cons] at hj ⊢
      rcases hj with h | h | h
      exacts [Or.inl (ihl h), Or.inr (Or.inl h), Or.inr (Or.inr h)]
    · split at hj
      · rw [inorder_rebalDel, inorder_updateNode] at hj
        simp only [inorder, List.mem_append, List.mem_cons] at hj ⊢
        rcases hj with h | h | h
        exacts [Or.inl h, Or.inr (Or.inl h), Or.inr (Or.inr (ihr h))]
      · split at hj
        · split at hj
          · simp only [inorder, List.mem_append, List.mem_cons]
            exact Or.inr (Or.inr hj)
          · split at hj
            · simp only [inorder, List.mem_append, List.mem_cons]
              exact Or.inl hj
            · rename_i hrf
              rw [inorder_rebalDel, inorder_updateNode] at hj
              simp only [inorder, List.mem_append, List.mem_cons] at hj ⊢
              have hrne : r ≠ leaf := by
                intro hre
                rw [hre] at hrf
                simp [isLeaf] at hrf
              rcases hj with h | h | h
              · exact Or.inl h
              · right; right
                obtain ⟨rest, hrest⟩ := inorder_eq_findMin_cons hrne
                rw [hrest, h]
                exact List.mem_cons_self _ _
              · exact Or.inr (Or.inr (ihr h))
        · rw [inorder_rebalDel, inorder_updateNode] at hj
          simp only [inorder, List.mem_append, List.mem_cons] at hj ⊢
          rcases hj with h | h | h
          exacts [Or.inl h, Or.inr (Or.inl h), Or.inr (Or.inr (ihr h))]

theorem sorted_node_parts {l r : ITree} {v : Ival} {m : Int} {h : Nat}
    (hs : (node l v m h r).StartsSorted) :
    l.StartsSorted ∧ r.StartsSorted ∧
      (∀ a ∈ l.inorder, a.start ≤ v.start) ∧
      (∀ b ∈ r.inorder, v.start ≤ b.start) := by
  unfold StartsSorted at hs
  rw [show (node l v m h r).inorder = l.inorder ++ v :: r.inorder from rfl,
    List.pairwise_append] at hs
  obtain ⟨pl, pvr, cross⟩ := hs
  rw [List.pairwise_cons] at pvr
  exact ⟨pl, pvr.2, fun a ha => cross a ha v (by simp), pvr.1⟩

theorem sorted_node_build {l r : ITree} {v : Ival} (m : Int) (h : Nat)
    (pl : l.StartsSorted) (pr : r.StartsSorted)
    (hl : ∀ a ∈ l.inorder, a.start ≤ v.start)
    (hr : ∀ b ∈ r.inorder, v.start ≤ b.start) :
    (node l v m h r).StartsSorted := by
  unfold StartsSorted
  rw [show (node l v m h r).inorder = l.inorder ++ v :: r.inorder from rfl,
    List.pairwise_append]
  refine ⟨pl, List.pairwise_cons.mpr ⟨hr, pr⟩, ?_⟩
  intro a ha b hb
  rcases List.mem_cons.mp hb with rfl | hbr
  · exact hl a ha
  · exact le_trans (hl a ha) (hr b hbr)

theorem sorted_rebalIns {t : ITree} (iv : Ival) (hs : t.StartsSorted) :
    (rebalIns t iv).StartsSorted := by
  unfold StartsSorted at hs ⊢
  rwa [inorder_rebalIns]

theorem sorted_rebalDel {t : ITree} (hs : t.StartsSorted) :
    (rebalDel t).StartsSorted := by
  unfold StartsSorted at hs ⊢
  rwa [inorder_rebalDel]

theorem sorted_insertAux {t : ITree} (iv : Ival) (hs : t.StartsSorted) :
    (insertAux t iv).StartsSorted := by
  induction t with
  | leaf => simp [insertAux, StartsSorted, inorder]
  | node l v m hh r ihl ihr =>
    obtain ⟨pl, pr, hl, hr⟩ := sorted_node_parts hs
    simp only [insertAux]
    by_cases hc : iv.start < v.start
    · rw [if_pos hc]
      refine sorted_rebalIns iv ?_
      refine sorted_node_build _ _ (ihl pl) pr ?_ hr
      intro a ha
      rcases mem_inorder_insertAux.mp ha with hal | rfl
      · exact hl a hal
      · exact le_of_lt hc
    · rw [if_neg hc]
      refine sorted_rebalIns iv ?_
      refine sorted_node_build _ _ pl (ihr pr) hl ?_
      intro b hb
      rcases mem_inorder_insertAux.mp hb with hbr | rfl
      · exact hr b hbr
      · exact le_of_not_lt hc

theorem sorted_deleteAux {t : ITree} (iv : Ival) (hs : t.StartsSorted) :
    (deleteAux t iv).StartsSorted := by
  induction t generalizing iv with
  | leaf => simpa [deleteAux] using hs
  | node l v m hh r ihl ihr =>
    obtain ⟨pl, pr, hl, hr⟩ := sorted_node_parts hs
    simp only [deleteAux]
    repeat' split
    · refine sorted_rebalDel ?_
      refine sorted_node_build _ _ (ihl _ pl) pr ?_ hr
      intro a ha
      exact hl a (mem_inorder_deleteAux ha)
    · refine sorted_rebalDel ?_
      refine sorted_node_build _ _ pl (ihr _ pr) hl ?_
      intro b hb
      exact hr b (mem_inorder_deleteAux hb)
    · exact pr
    · exact pl
    · rename_i hrf
      have hrne : r ≠ leaf := by
        intro hre
        rw [hre] at hrf
        simp [isLeaf] at hrf
      obtain ⟨rest, hrest⟩ := inorder_eq_findMin_cons hrne
      refine sorted_rebalDel ?_
      have prP : List.Pairwise (fun a b => a.start ≤ b.start) r.inorder := pr
      have hmin : ∀ b ∈ r.inorder, (findMinIv r).start ≤ b.start := by
        intro b hb
        rw [hrest] at hb prP
        rcases List.mem_cons.mp hb with rfl | hb2
        · exact le_refl _
        · exact (List.pairwise_cons.mp prP).1 b hb2
      refine sorted_node_build _ _ pl ?_ ?_ ?_
      · exact ihr _ pr
      · intro a ha
        have hsucc : findMinIv r ∈ r.inorder := by
          rw [hrest]; exact List.mem_cons_self _ _
        exact le_trans (hl a ha) (hr _ hsucc)
      · intro b hb
        exact hmin b (mem_inorder_deleteAux hb)
    · refine sorted_rebalDel ?_
      refine sorted_node_build _ _ pl (ihr _ pr) hl ?_
      intro b hb
      exact hr b (mem_inorder_deleteAux hb)

theorem stops_le_of_maxUB {t : ITree} (h : maxUB t = true) :
    ∀ i ∈ t.inorder, i.stop ≤ t.cmax := by
  induction t with
  | leaf => simp [inorder]
  | node l v m hh r ihl ihr =>
    obtain ⟨h1, h2, h3, h4, h5⟩ := maxUB_node_parts h
    intro i hi
    rw [show (node l v m hh r).inorder = l.inorder ++ v :: r.inorder from rfl] at hi
    rw [show (node l v m hh r).cmax = m from rfl]
    simp only [List.mem_append, List.mem_cons] at hi
    rcases hi with hil | rfl | hir
    · cases l with
      | leaf => simp [inorder] at hil
      | node _ _ _ _ _ =>
        exact le_trans (ihl h2 i hil) (by simpa [cmaxLe] using h4)
    · exact h1
    · cases r with
      | leaf => simp [inorder] at hir
      | node _ _ _ _ _ =>
        exact le_trans (ihr h3 i hir) (by simpa [cmaxLe] using h5)

theorem findOverlapAux_eq_filter {t : ITree} (q : Ival)
    (hm : maxUB t = true) (hs : t.StartsSorted) :
    findOverlapAux q t = t.inorder.filter (fun i => i.overlaps q) := by
  induction t with
  | leaf => rfl
  | node l v m hh r ihl ihr =>
    obtain ⟨h1, h2, h3, h4, h5⟩ := maxUB_node_parts hm
    obtain ⟨pl, pr, hl, hr⟩ := sorted_node_parts hs
    simp only [findOverlapAux]
    rw [show (node l v m hh r).inorder = l.inorder ++ v :: r.inorder from rfl]
    by_cases hpr : m ≤ q.start
    · rw [if_pos hpr]
      symm
      rw [List.filter_eq_nil]
      intro a ha
      have hstop : a.stop ≤ m := by
        have := stops_le_of_maxUB hm a
          (by rw [show (node l v m hh r).inorder = l.inorder ++ v :: r.inorder from rfl]
              exact ha)
        simpa [cmax] using this
      simp only [Ival.overlaps, Bool.and_eq_true, decide_eq_true_eq, not_and]
      intro _
      omega
    · rw [if_neg hpr]
      rw [ihl h2 pl, ihr h3 pr]
      rw [List.filter_append, List.filter_cons]
      by_cases hvs : v.start < q.stop
      · rw [if_pos hvs]
        by_cases hov : v.overlaps q
        · rw [if_pos hov, if_pos (by simpa using hov)]
          simp
        · rw [if_neg hov, if_neg (by simpa using hov)]
          simp
      · rw [if_neg hvs]
        have hov : ¬(v.overlaps q = true) := by
          simp only [Ival.overlaps, Bool.and_eq_true, decide_eq_true_eq, not_and]
          intro hcon
          exact absurd hcon hvs
        have hrnil : r.inorder.filter (fun i => i.overlaps q) = [] := by
          rw [List.filter_eq_nil]
          intro b hb
          have : v.start ≤ b.start := hr b hb
          simp only [Ival.overlaps, Bool.and_eq_true, decide_eq_true_eq, not_and]
          intro hcon
          omega
        have hovf : v.overlaps q = false := by simpa using hov
        rw [hrnil]
        simp [hovf]

end ITree

theorem applyIOp_ins_root (t : IntervalTree) (iv : Ival) :
    (applyIOp t (.ins iv)).root = t.root.insertAux iv := rfl

theorem applyIOp_del_root (t : IntervalTree) (iv : Ival) :
    (applyIOp t (.del iv)).root = t.root.deleteAux iv := by
  show ((t.delete iv).1).root = t.root.deleteAux iv
  unfold IntervalTree.delete
  dsimp only
  split <;> rfl

theorem buildIT_inv (ops : List IOp) :
    ITree.maxUB (buildIT ops).root = true ∧ (buildIT ops).root.StartsSorted := by
  have hgen : ∀ (l : List IOp) (t : IntervalTree),
      ITree.maxUB t.root = true → t.root.StartsSorted →
      ITree.maxUB (l.foldl applyIOp t).root = true ∧
        (l.foldl applyIOp t).root.StartsSorted := by
    intro l
    induction l with
    | nil => exact fun t hm hs => ⟨hm, hs⟩
    | cons op rest ih =>
      intro t hm hs
      rw [List.foldl_cons]
      cases op with
      | ins iv =>
        refine ih _ ?_ ?_ <;> rw [applyIOp_ins_root]
        · exact ITree.maxUB_insertAux iv hm
        · exact ITree.sorted_insertAux iv hs
      | del iv =>
        refine ih _ ?_ ?_ <;> rw [applyIOp_del_root]
        · exact ITree.maxUB_deleteAux iv hm
        · exact ITree.sorted_deleteAux iv hs
  exact hgen ops IntervalTree.empty (by decide)
    (by simp [IntervalTree.empty, ITree.StartsSorted, ITree.inorder])

/-- C2: for every interval-index state built by any sequence of inserts
and deletes and every query interval `q`, `find_overlapping(q)` returns
exactly the stored intervals `i` with `i.start < q.end ∧ q.start < i.end`
— the same list a brute-force scan of the stored intervals produces — and
in particular every reported interval strictly overlaps `q`, so touching
intervals (`i.end = q.start` or `q.end = i.start`) are never reported. -/
theorem C2_find_overlapping_matches_brute_force (ops : List IOp) (q : Ival) :
    (buildIT ops).find_overlapping q
      = ((buildIT ops).get_all_intervals).filter (fun i => i.overlaps q) ∧
    ∀ i ∈ (buildIT ops).find_overlapping q,
      i.start < q.stop ∧ q.start < i.stop := by
  obtain ⟨hm, hs⟩ := buildIT_inv ops
  have hmain : (buildIT ops).find_overlapping q
      = ((buildIT ops).get_all_intervals).filter (fun i => i.overlaps q) :=
    ITree.findOverlapAux_eq_filter q hm hs
  refine ⟨hmain, ?_⟩
  intro i hi
  rw [hmain] at hi
  have hov := List.of_mem_filter hi
  simpa [Ival.overlaps] using hov

/-- C10: `ReservationStatus` has five members — `NO_SHOW` beyond the four
the spec lists — and `check_conflict` filters out only `CANCELLED` and
`COMPLETED`; hence a booking whose status is `NO_SHOW` with its interval
still in the room's index is returned as a conflict, and any overlapping
creation request on that room fails with `Conflict`, mutating nothing. -/
theorem C10_no_show_blocks_creation
    (s : ReservationSystem) (t : IntervalTree) (iv : Ival) (ref : Nat)
    (res : Reservation) (r' : Reservation) (roomref : Nat) (room : Room)
    (ht : dictGet s.room_intervals r'.room_id = some t)
    (hmax : ITree.maxUB t.root = true) (hsort : t.root.StartsSorted)
    (hiv : iv ∈ t.root.inorder) (hdata : iv.data = some ref)
    (hres : s.resHeap[ref]? = some res) (hstat : res.status = .no_show)
    (hov1 : iv.start < r'.end_time) (hov2 : r'.start_time < iv.stop)
    (hrr : s.get_room_ref r'.room_id = some roomref)
    (hroomv : s.roomHeap[roomref]? = some room)
    (hact : room.is_active = true) (hcap : r'.attendees ≤ room.capacity)
    (hse : r'.start_time ≤ r'.end_time) :
    ReservationStatus.members.length = 5 ∧
    ReservationStatus.no_show ∈ ReservationStatus.members ∧
    ReservationStatus.no_show ∉
      [ReservationStatus.pending, .confirmed, .cancelled, .completed] ∧
    statusFiltered .no_show = false ∧
    (∃ cs, s.check_conflict r'.room_id r'.start_time r'.end_time none = some cs ∧
      ref ∈ cs) ∧
    (∃ cs, s.create_reservation r' = (s, .conflict cs) ∧ ref ∈ cs) := by
  have hcc : ∃ cs,
      s.check_conflict r'.room_id r'.start_time r'.end_time none = some cs ∧
        ref ∈ cs := by
    unfold ReservationSystem.check_conflict
    rw [ht]
    dsimp only
    rw [if_neg (by omega : ¬r'.start_time > r'.end_time)]
    refine ⟨_, rfl, ?_⟩
    rw [List.mem_filterMap]
    refine ⟨iv, ?_, ?_⟩
    · show iv ∈ ITree.findOverlapAux ⟨r'.start_time, r'.end_time, none⟩ t.root
      rw [ITree.findOverlapAux_eq_filter _ hmax hsort, List.mem_filter]
      refine ⟨hiv, ?_⟩
      simp only [Ival.overlaps, Bool.and_eq_true, decide_eq_true_eq]
      exact ⟨hov1, hov2⟩
    · rw [hdata]
      dsimp only
      rw [hres]
      dsimp only
      simp [hstat, statusFiltered]
  obtain ⟨cs, hcs, hmem⟩ := hcc
  refine ⟨by decide, by decide, by decide, by decide, ⟨cs, hcs, hmem⟩, cs, ?_, hmem⟩
  unfold ReservationSystem.create_reservation
  rw [hrr]
  dsimp only
  rw [hroomv]
  dsimp only
  rw [hcs]
  have hne : cs ≠ [] := by
    intro hnil
    rw [hnil] at hmem
    simp at hmem
  simp [hact, Nat.not_lt.mpr hcap, hne]

/-- Witness for C10 at a concrete reachable state: booking 10 on room 1
over `[600,660)` marked `no_show`, blocking a request over `[630,700)`. -/
theorem C10_no_show_witness :
    (dictGet sysNoShow.room_intervals resOverNoShow.room_id = some noShowTree ∧
      ITree.maxUB noShowTree.root = true ∧
      noShowTree.root.StartsSorted ∧
      (⟨600, 660, some 0⟩ : Ival) ∈ noShowTree.root.inorder ∧
      sysNoShow.resHeap[0]? = some noShowRes ∧
      noShowRes.status = .no_show ∧
      sysNoShow.get_room_ref resOverNoShow.room_id = some 0 ∧
      sysNoShow.roomHeap[0]? = some room1 ∧
      room1.is_active = true ∧
      resOverNoShow.attendees ≤ room1.capacity ∧
      resOverNoShow.start_time ≤ resOverNoShow.end_time) ∧
    (∃ cs, sysNoShow.create_reservation resOverNoShow =
        (sysNoShow, .conflict cs) ∧ 0 ∈ cs) :=
  ⟨by decide,
   (C10_no_show_blocks_creation sysNoShow noShowTree ⟨600, 660, some 0⟩ 0
      noShowRes resOverNoShow 0 room1 (by decide) (by decide) (by decide)
      (by decide) (by decide) (by decide) (by decide) (by decide) (by decide)
      (by decide) (by decide) (by decide) (by decide) (by decide)).2.2.2.2.2⟩

/-- C1: the no-double-booking invariant is violated by the reachable
operation sequence `add_room; create(10 @ [600,660)); update(10 →
[720,780)); undo(); create(11 @ [720,780))`: the undo restores the
interval index and the dictionary but not the AVL catalog, so booking 10
is still observable at `[720,780)` and booking 11 is admitted on the same
slot — two distinct non-cancelled bookings on room 1 with overlapping
half-open intervals. -/
theorem C1_double_booking_reachable :
    ∃ b1 b2 : Reservation,
      sysC1.get_reservation 10 = some b1 ∧
      sysC1.get_reservation 11 = some b2 ∧
      b1.room_id = b2.room_id ∧ b1.id ≠ b2.id ∧
      b1.status ≠ .cancelled ∧ b2.status ≠ .cancelled ∧
      b1.start_time < b2.end_time ∧ b2.start_time < b1.end_time := by
  refine ⟨⟨10, 1, 720, 780, .pending, 1⟩, ⟨11, 1, 720, 780, .pending, 1⟩, ?_⟩
  decide

/-- C3: `apply(M); undo()` does not restore the prior state for an update
mutation.  After moving booking 10 from `[600,660)` to `[720,780)` and
undoing, the public lookup `get_reservation` still observes `[720,780)`
(the AVL catalog keeps the mutated shared object; only the dictionary was
rebound to the restored snapshot), although the pre-update value had
`end_time = 660`. -/
theorem C3_undo_does_not_restore :
    sysRAU.undo.2 = .ok ∧
    sysRAUU.get_reservation 10 =
      some { id := 10, room_id := 1, start_time := 720, end_time := 780 } ∧
    sysRA.get_reservation 10 = some resA ∧
    resA.end_time = 660 := by
  decide

/-- C4: after `begin_batch(); create; create; create; end_batch()`, a
single `undo()` pops the `BATCH` action but `_apply_undo_action` has no
branch for `ActionType.BATCH`, so none of the three creations is
reverted: all three bookings are still observable and their intervals are
still indexed, although none existed before the batch. -/
theorem C4_batch_undo_reverts_nothing :
    sysBatch.undo.2 = .ok ∧
    (sysBatchU.get_reservation 10).isSome = true ∧
    (sysBatchU.get_reservation 11).isSome = true ∧
    (sysBatchU.get_reservation 12).isSome = true ∧
    sysR.get_reservation 10 = none ∧
    sysR.get_reservation 11 = none ∧
    sysR.get_reservation 12 = none ∧
    roomIntervalBounds sysBatchU 1 = some [(600, 660), (700, 710), (800, 810)] ∧
    roomIntervalBounds sysR 1 = some [] := by
  decide

/-- C5 counterexample: a booking whose interval has `start >= end`
(here `start = end = 600`) does NOT fail with a typed `InvalidInterval`
error — `create_reservation` performs no `start < end` validation and the
zero-length booking is created successfully. -/
theorem C5_zero_length_booking_created :
    (sysR.create_reservation resZero).2 = .ok ∧
    (sysR.create_reservation resZero).1.get_reservation 20 = some resZero := by
  decide

/-- C5 amended: `create_reservation` never produces an `InvalidInterval`
result.  For `start > end` (room present, active, capacity sufficient,
interval tree allocated) the `Interval` constructor inside
`check_conflict` raises `ValueError` — an exception, not a typed result —
before any mutation, so the state is returned unchanged; for
`start = end` no interval error occurs at all (see the counterexample). -/
theorem C5_amended_backwards_interval_raises (s : ReservationSystem)
    (r : Reservation) (roomref : Nat) (room : Room) (t : IntervalTree)
    (h1 : s.get_room_ref r.room_id = some roomref)
    (h2 : s.roomHeap[roomref]? = some room)
    (h3 : room.is_active = true)
    (h4 : r.attendees ≤ room.capacity)
    (h5 : dictGet s.room_intervals r.room_id = some t)
    (h6 : r.end_time < r.start_time) :
    s.create_reservation r = (s, .raisedValueError) := by
  unfold ReservationSystem.create_reservation ReservationSystem.check_conflict
  simp [h1, h2, h3, h5, show ¬room.capacity < r.attendees from Nat.not_lt.mpr h4,
        show r.start_time > r.end_time from h6]

/-- Witness for the amended C5 at a concrete input. -/
theorem C5_amended_witness :
    (sysR.get_room_ref resNeg.room_id = some 0 ∧
      sysR.roomHeap[0]? = some room1 ∧
      room1.is_active = true ∧
      resNeg.attendees ≤ room1.capacity ∧
      dictGet sysR.room_intervals resNeg.room_id = some IntervalTree.empty ∧
      resNeg.end_time < resNeg.start_time) ∧
    sysR.create_reservation resNeg = (sysR, .raisedValueError) :=
  ⟨by decide,
   C5_amended_backwards_interval_raises sysR resNeg 0 room1 IntervalTree.empty
     (by decide) (by decide) (by decide) (by decide) (by decide) (by decide)⟩

/-- C6: atomicity of the update error path fails.  In the trace `sysC6`
the index of room 1 holds `[100,200)` left of a start-tied zero-length
node, so the initial `delete` of the old interval misnavigates (it
compares `(start, end)` lexicographically while insertion ignored the end
bound) and silently removes nothing; the conflict revert then re-inserts
the old interval, leaving the index with an extra copy of `[100,200)`
although the call returned `Conflict` — the index is NOT exactly as
before the call (the booking record itself is reverted correctly). -/
theorem C6_conflict_revert_duplicates_interval :
    sysC6upd.2 = .conflictReverted ∧
    sysC6upd.1.get_reservation 30 = sysC6.get_reservation 30 ∧
    roomIntervalBounds sysC6 1 =
      some [(100, 200), (100, 100), (100, 100), (300, 400)] ∧
    roomIntervalBounds sysC6upd.1 1 =
      some [(100, 200), (100, 100), (100, 100), (100, 200), (300, 400)] := by
  decide

/-- C7: inserting a duplicate key DOES overwrite the value, but `size` is
incremented unconditionally (`self.size += 1` runs even when `_insert`
only overwrote), so after `insert(1,10); insert(1,20)` the tree reports
`size = 2` while holding one node — and deleting key 1 leaves an empty
tree whose `len` is still 1. -/
theorem C7_duplicate_insert_increments_size :
    avlDup.search 1 = some 20 ∧
    avlDup.size = 2 ∧
    avlDup.root.countNodes = 1 ∧
    (avlDup.delete 1).1.root = AVL.leaf ∧
    (avlDup.delete 1).1.size = 1 := by
  decide

/-- C8 counterexample: recording against a full undo stack
(`max_history = 1`, holding the action with entity id 7) does NOT drop
the oldest entry — `Stack.push` rejects the NEW command (its `False`
result is discarded), so the stack still holds id 7 and never id 8; the
redo stack is cleared as always. -/
theorem C8_full_stack_drops_new_command :
    mgrOver.undo_stack.items.map Action.entity_id = [some 7] ∧
    mgrOver.undo_stack.items.map Action.entity_id ≠ [some 8] ∧
    mgrOver.redo_stack.items.length = 0 := by
  decide

/-- C8 amended: when the undo stack already holds its configured maximum
(a non-zero bound), recording a new mutation outside batch mode leaves
the undo stack unchanged — the NEW command is silently discarded, no
entry is dropped — while the redo stack is still cleared. -/
theorem C8_amended_full_stack_unchanged (m : UndoRedoManager) (a : Action)
    (M : Nat) (hb : m.batch_mode = false)
    (hmax : m.undo_stack.max_size = some M) (hM : M ≠ 0)
    (hfull : M ≤ m.undo_stack.items.length) :
    (m.record_action a).undo_stack = m.undo_stack ∧
    (m.record_action a).redo_stack.items = [] := by
  unfold UndoRedoManager.record_action Stack.push Stack.clear
  rw [hb, hmax]
  simp [hM, hfull]

/-- Witness for the amended C8 at a concrete input. -/
theorem C8_amended_witness :
    (mgrFull.batch_mode = false ∧
      mgrFull.undo_stack.max_size = some 1 ∧
      (1 : Nat) ≠ 0 ∧
      1 ≤ mgrFull.undo_stack.items.length) ∧
    (mgrFull.record_action actEight).undo_stack = mgrFull.undo_stack ∧
    (mgrFull.record_action actEight).redo_stack.items = [] :=
  ⟨by refine ⟨rfl, rfl, by decide, by decide⟩,
   C8_amended_full_stack_unchanged mgrFull actEight 1 rfl rfl (by decide) (by decide)⟩

/-- C9: `insert` breaks start ties by always descending right (the end
bound is never compared), while `delete` navigates by `(start, end)`
lexicographic comparison — so after `insert([5,10)); insert([5,7))` the
stored interval `[5,7)` sits in the right subtree of `[5,10)` but
`delete([5,7))` searches left and returns `False`, removing nothing:
`insert(i); delete(i)` does not restore the prior multiset. -/
theorem C9_tied_delete_fails :
    (⟨5, 7, none⟩ : Ival) ∈ itTwo.get_all_intervals ∧
    (itTwo.delete ⟨5, 7, none⟩).2 = false ∧
    (itTwo.delete ⟨5, 7, none⟩).1.get_all_intervals = itTwo.get_all_intervals ∧
    itOne.get_all_intervals = [⟨5, 10, none⟩] ∧
    itTwo.get_all_intervals = [⟨5, 10, none⟩, ⟨5, 7, none⟩] := by
  decide

end Salon
